import Mathlib

/-!
Verification of the per-destination rate-limited webhook delivery queue
(background script of the super-webhooks extension).

The model is a shallow embedding of the queue-management code:
`webhookQueues` entries become `QueueData`, the scheduling functions
`processQueue` / `addToQueue` become pure state-transformers over a
single-destination system state `DestSys`, timers (`setTimeout` handles)
become an explicit list of pending (id, fire-time) pairs, and the event
loop becomes a fold over a list of external events (enqueue calls and
timer firings).  Times and rate limits are `Int` (JS numbers at these
magnitudes are exact integers).
-/

/-- A queued delivery, as pushed by `addToQueue`:
`{ payload, webhookName, timestamp: Date.now() }`. -/
structure Entry where
  payload : Int
  webhookName : String
  timestamp : Int
deriving DecidableEq

/-- Per-destination queue record, as stored in `webhookQueues`:
`{ queue: [], lastSent: timestamp, timer: timeoutId, rateLimit }`.
The rate limit is in seconds (`rateLimitMs = rateLimit * 1000`). -/
structure QueueData where
  queue : List Entry
  lastSent : Int
  timer : Option Nat
  rateLimit : Int
deriving DecidableEq

/-- System state for one destination (one key of `webhookQueues`):
the stored queue record (`none` when the map has no entry for the url),
the set of armed `setTimeout` timers as (id, fire time) pairs, a fresh-id
counter, the log of dispatches (calls handing an entry to
`postToWebhookDirect`, with their times), and the log of times at which
`showQueueNotification` was triggered by an enqueue. -/
structure DestSys where
  qd : Option QueueData
  pending : List (Nat × Int)
  nextId : Nat
  dispatches : List (Int × Entry)
  notifs : List Int
deriving DecidableEq

/-- Current queue length; used as fuel for `processQueue`, whose source
recursion removes one queue entry per recursive call. -/
def queueLen (s : DestSys) : Nat :=
  match s.qd with
  | none => 0
  | some qd => qd.queue.length

/-- `processQueue(webhookUrl)` with explicit fuel.  Fuel `0` coincides with
the empty-queue early return, and each recursive call (the
zero-rate-limit immediate reprocessing) removes exactly one entry, so
running with fuel = current queue length is the source's unbounded
recursion.  Branches, in source order: early return, the wait branch
(`clearTimeout` of the stored timer, then arming a replacement), and the
dispatch branch (shift the head, stamp `lastSent = now`, log the
dispatch, then either arm a follow-up timer without any cancellation or
reprocess immediately). -/
def processQueueF (now : Int) : Nat → DestSys → DestSys
  | 0, s => s
  | fuel + 1, s =>
    match s.qd with
    | none => s
    | some qd =>
      match qd.queue with
      | [] => s
      | item :: rest =>
        if 0 < qd.rateLimit ∧ now - qd.lastSent < qd.rateLimit * 1000 then
          -- need to wait before sending: cancel-and-replace the stored timer
          let waitTime := qd.rateLimit * 1000 - (now - qd.lastSent)
          let pending1 :=
            match qd.timer with
            | some tid => s.pending.filter (fun p => p.1 ≠ tid)
            | none => s.pending
          { s with
            qd := some { qd with timer := some s.nextId },
            pending := pending1 ++ [(s.nextId, now + waitTime)],
            nextId := s.nextId + 1 }
        else
          -- send the next item in queue (hand it to postToWebhookDirect)
          let s1 : DestSys :=
            { s with
              qd := some { qd with queue := rest, lastSent := now },
              dispatches := s.dispatches ++ [(now, item)] }
          if rest.isEmpty then s1
          else if 0 < qd.rateLimit then
            -- schedule next item: a timer is armed with NO clearTimeout here
            { s1 with
              qd := some { qd with queue := rest, lastSent := now, timer := some s1.nextId },
              pending := s1.pending ++ [(s1.nextId, now + qd.rateLimit * 1000)],
              nextId := s1.nextId + 1 }
          else
            -- no rate limit: process immediately (same event-loop task)
            processQueueF now fuel s1

/-- `processQueue(webhookUrl)` from the source. -/
def processQueue (now : Int) (s : DestSys) : DestSys :=
  processQueueF now (queueLen s) s

/-- State reached by `addToQueue(webhookUrl, payload, webhookName, rateLimit)`
just before its final `processQueue(webhookUrl)` call: create the queue
record if absent, overwrite its stored rate limit with the argument, push
the new entry, and trigger `showQueueNotification` (logged in `notifs`)
when `willBeQueued` holds, i.e. when
`rateLimit > 0 && (queue.length > 1 || timeSinceLastSent < rateLimitMs)`
evaluated after the push. -/
def addToQueuePre (now payload : Int) (webhookName : String) (rateLimit : Int)
    (s : DestSys) : DestSys :=
  let qd0 := s.qd.getD { queue := [], lastSent := 0, timer := none, rateLimit := rateLimit }
  let qd1 := { qd0 with
    rateLimit := rateLimit,
    queue := qd0.queue ++ [{ payload := payload, webhookName := webhookName, timestamp := now }] }
  if 0 < qd1.rateLimit ∧ (1 < qd1.queue.length ∨ now - qd1.lastSent < qd1.rateLimit * 1000) then
    { s with qd := some qd1, notifs := s.notifs ++ [now] }
  else
    { s with qd := some qd1 }

/-- `addToQueue(webhookUrl, payload, webhookName, rateLimit = 0)` from the
source (the omitted-argument default is `0`). -/
def addToQueue (now payload : Int) (webhookName : String) (rateLimit : Int := 0)
    (s : DestSys) : DestSys :=
  processQueue now (addToQueuePre now payload webhookName rateLimit s)

/-- External stimuli of the destination's event loop: an `addToQueue` call
at some time, or the firing of an armed timer (whose callback is
`processQueue(webhookUrl)`).  A timer may fire at any time at or after
its due time; a cancelled (no longer pending) timer never fires. -/
inductive Event
  | enqueue (time payload : Int) (name : String) (rateLimit : Int)
  | fire (time : Int) (id : Nat)
deriving DecidableEq

/-- One event-loop task. -/
def step (s : DestSys) (e : Event) : DestSys :=
  match e with
  | .enqueue t p n r => addToQueue t p n r s
  | .fire t id =>
    match s.pending.find? (fun q => q.1 = id) with
    | some q =>
      if q.2 ≤ t then
        processQueue t { s with pending := s.pending.filter (fun q2 => q2.1 ≠ id) }
      else s
    | none => s

/-- Run a sequence of event-loop tasks. -/
def runE (s : DestSys) (tr : List Event) : DestSys := tr.foldl step s

/-- The destination before anything happened: `webhookQueues` has no entry,
no timers armed, nothing dispatched. -/
def initDest : DestSys :=
  { qd := none, pending := [], nextId := 0, dispatches := [], notifs := [] }

/-- The entries currently queued for the destination. -/
def queueOf (s : DestSys) : List Entry :=
  match s.qd with
  | none => []
  | some qd => qd.queue

/-- The `lastSent` value an `addToQueue` call would observe (0 when the
queue record does not exist yet, matching its fresh initialization). -/
def preLastSent (s : DestSys) : Int :=
  match s.qd with
  | none => 0
  | some qd => qd.lastSent

/-- The dispatched entries, in dispatch order. -/
def dispSnd (s : DestSys) : List Entry := s.dispatches.map Prod.snd

/-- Consecutive dispatch times are at least `d` apart. -/
def chronoSpaced (d : Int) (l : List (Int × Entry)) : Prop :=
  List.Chain' (fun a b => a.1 + d ≤ b.1) l

/-- The entries an event list enqueues, in order. -/
def eEntries : List Event → List Entry
  | [] => []
  | .enqueue t p n _ :: es => { payload := p, webhookName := n, timestamp := t } :: eEntries es
  | .fire _ _ :: es => eEntries es

/-- Every enqueue event in the list carries rate limit `R`. -/
def eventRateOK (R : Int) : Event → Bool
  | .enqueue _ _ _ r => decide (r = R)
  | .fire _ _ => true

/-- All enqueues of the trace use rate limit `R`. -/
def ratesOK (R : Int) (tr : List Event) : Prop := ∀ e ∈ tr, eventRateOK R e = true

instance (R : Int) (tr : List Event) : Decidable (ratesOK R tr) := by
  unfold ratesOK
  infer_instance

/-!
## Scheduling invariant for a fixed positive rate limit

`SysInv R s` collects the facts preserved by every event-loop task when
every enqueue carries rate limit `R`: the stored rate limit is `R`, the
`lastSent` field equals the time of the last logged dispatch, and the
dispatch log is spaced by at least `R * 1000` milliseconds.
-/

structure SysInv (R : Int) (s : DestSys) : Prop where
  qd_none : s.qd = none → s.dispatches = []
  rate_eq : ∀ qd, s.qd = some qd → qd.rateLimit = R
  last_eq : ∀ qd p, s.qd = some qd → s.dispatches.getLast? = some p → p.1 = qd.lastSent
  spaced : chronoSpaced (R * 1000) s.dispatches

theorem sysInv_init (R : Int) : SysInv R initDest := by
  refine ⟨fun _ => rfl, ?_, ?_, List.chain'_nil⟩
  · intro qd h; exact absurd h (by simp [initDest])
  · intro qd p h; exact absurd h (by simp [initDest])


/-- The timer currently stored in the destination's queue record. -/
def preTimer (s : DestSys) : Option Nat :=
  match s.qd with
  | none => none
  | some qd => qd.timer

/-- Branch equation: the wait branch of `processQueue` (rate limit active and
the last dispatch too recent) cancels the stored timer and arms a
replacement for the remaining wait. -/
theorem processQueueF_wait (now : Int) (fuel : Nat) (s : DestSys) (qd : QueueData)
    (item : Entry) (rest : List Entry)
    (hqd : s.qd = some qd) (hq : qd.queue = item :: rest)
    (hc : 0 < qd.rateLimit ∧ now - qd.lastSent < qd.rateLimit * 1000) :
    processQueueF now (fuel + 1) s =
      { s with
        qd := some { qd with timer := some s.nextId },
        pending := (match qd.timer with
          | some tid => s.pending.filter (fun p => p.1 ≠ tid)
          | none => s.pending) ++
          [(s.nextId, now + (qd.rateLimit * 1000 - (now - qd.lastSent)))],
        nextId := s.nextId + 1 } := by
  simp [processQueueF, hqd, hq, hc.1, hc.2]

/-- Branch equation: dispatching the only remaining entry logs it at `now`,
stamps `lastSent = now` and leaves the timers untouched. -/
theorem processQueueF_dispatch_last (now : Int) (fuel : Nat) (s : DestSys) (qd : QueueData)
    (item : Entry)
    (hqd : s.qd = some qd) (hq : qd.queue = [item])
    (hc : ¬ (0 < qd.rateLimit ∧ now - qd.lastSent < qd.rateLimit * 1000)) :
    processQueueF now (fuel + 1) s =
      { s with
        qd := some { qd with queue := [], lastSent := now },
        dispatches := s.dispatches ++ [(now, item)] } := by
  simp only [processQueueF, hqd, hq, if_neg hc, List.isEmpty_nil, if_true]

/-- Branch equation: dispatching with further entries left and a positive
rate limit arms a follow-up timer for `rateLimitMs` with no cancellation
of any previously armed timer. -/
theorem processQueueF_dispatch_arm (now : Int) (fuel : Nat) (s : DestSys) (qd : QueueData)
    (item : Entry) (rest : List Entry)
    (hqd : s.qd = some qd) (hq : qd.queue = item :: rest) (hne : rest ≠ [])
    (hc : ¬ (0 < qd.rateLimit ∧ now - qd.lastSent < qd.rateLimit * 1000))
    (hpos : 0 < qd.rateLimit) :
    processQueueF now (fuel + 1) s =
      { s with
        qd := some { qd with queue := rest, lastSent := now, timer := some s.nextId },
        pending := s.pending ++ [(s.nextId, now + qd.rateLimit * 1000)],
        nextId := s.nextId + 1,
        dispatches := s.dispatches ++ [(now, item)] } := by
  have hie : rest.isEmpty = false := by simpa [List.isEmpty_iff] using hne
  simp only [processQueueF, hqd, hq, if_neg hc, hie, Bool.false_eq_true, if_false, if_pos hpos]

/-- Branch equation: dispatching with further entries left and no rate limit
reprocesses the rest immediately in the same task. -/
theorem processQueueF_dispatch_zero (now : Int) (fuel : Nat) (s : DestSys) (qd : QueueData)
    (item : Entry) (rest : List Entry)
    (hqd : s.qd = some qd) (hq : qd.queue = item :: rest) (hne : rest ≠ [])
    (hc : ¬ (0 < qd.rateLimit ∧ now - qd.lastSent < qd.rateLimit * 1000))
    (hz : ¬ 0 < qd.rateLimit) :
    processQueueF now (fuel + 1) s =
      processQueueF now fuel
        { s with
          qd := some { qd with queue := rest, lastSent := now },
          dispatches := s.dispatches ++ [(now, item)] } := by
  have hie : rest.isEmpty = false := by simpa [List.isEmpty_iff] using hne
  simp only [processQueueF, hqd, hq, if_neg hc, hie, Bool.false_eq_true, if_false, if_neg hz]

theorem processQueueF_inv (R now : Int) (hR : 0 < R) :
    ∀ fuel s, SysInv R s →
      SysInv R (processQueueF now fuel s) ∧
      dispSnd (processQueueF now fuel s) ++ queueOf (processQueueF now fuel s) =
        dispSnd s ++ queueOf s := by
  intro fuel
  induction fuel with
  | zero => intro s hs; exact ⟨hs, rfl⟩
  | succ f _ =>
    intro s hs
    rcases hqd : s.qd with _ | qd
    · have : processQueueF now (f + 1) s = s := by simp [processQueueF, hqd]
      rw [this]; exact ⟨hs, rfl⟩
    · rcases hq : qd.queue with _ | ⟨item, rest⟩
      · have : processQueueF now (f + 1) s = s := by simp [processQueueF, hqd, hq]
        rw [this]; exact ⟨hs, rfl⟩
      · have hrate : qd.rateLimit = R := hs.rate_eq qd hqd
        have hpos : 0 < qd.rateLimit := by rw [hrate]; exact hR
        by_cases hcond : 0 < qd.rateLimit ∧ now - qd.lastSent < qd.rateLimit * 1000
        · -- wait branch: only timer bookkeeping changes
          rw [processQueueF_wait now f s qd item rest hqd hq hcond]
          refine ⟨⟨?_, ?_, ?_, hs.spaced⟩, ?_⟩
          · intro h; simp at h
          · intro qd' h
            simp only [Option.some.injEq] at h
            rw [← h]
            exact hrate
          · intro qd' p h hp
            simp only [Option.some.injEq] at h
            rw [← h]
            exact hs.last_eq qd p hqd hp
          · simp [dispSnd, queueOf, hqd, hq]
        · -- dispatch branch: log the head entry at time `now`
          have hge : qd.lastSent + R * 1000 ≤ now := by
            rw [hrate] at hcond hpos
            omega
          have hspaced : chronoSpaced (R * 1000) (s.dispatches ++ [(now, item)]) := by
            refine List.Chain'.append hs.spaced (List.chain'_singleton _) ?_
            intro x hx y hy
            simp only [List.head?_cons, Option.mem_def, Option.some.injEq] at hy
            have hx1 : x.1 = qd.lastSent := hs.last_eq qd x hqd hx
            rw [← hy]
            simpa [hx1] using hge
          have hlast : (s.dispatches ++ [(now, item)]).getLast? = some (now, item) :=
            List.getLast?_concat s.dispatches
          rcases hrest : rest with _ | ⟨e2, rest2⟩
          · -- queue drained by this dispatch
            rw [hrest] at hq
            rw [processQueueF_dispatch_last now f s qd item hqd hq hcond]
            refine ⟨⟨?_, ?_, ?_, hspaced⟩, ?_⟩
            · intro h; simp at h
            · intro qd' h
              simp only [Option.some.injEq] at h
              rw [← h]
              exact hrate
            · intro qd' p h hp
              simp only [Option.some.injEq] at h
              rw [← h]
              rw [hlast] at hp
              simp only [Option.some.injEq] at hp
              rw [← hp]
            · simp [dispSnd, queueOf, hqd, hq]
          · -- more items remain; a follow-up timer is armed
            rw [hrest] at hq
            rw [processQueueF_dispatch_arm now f s qd item (e2 :: rest2) hqd hq
              (by simp) hcond hpos]
            refine ⟨⟨?_, ?_, ?_, hspaced⟩, ?_⟩
            · intro h; simp at h
            · intro qd' h
              simp only [Option.some.injEq] at h
              rw [← h]
              exact hrate
            · intro qd' p h hp
              simp only [Option.some.injEq] at h
              rw [← h]
              rw [hlast] at hp
              simp only [Option.some.injEq] at hp
              rw [← hp]
            · simp [dispSnd, queueOf, hqd, hq]

theorem processQueue_inv (R now : Int) (hR : 0 < R) (s : DestSys) (hs : SysInv R s) :
    SysInv R (processQueue now s) ∧
    dispSnd (processQueue now s) ++ queueOf (processQueue now s) = dispSnd s ++ queueOf s :=
  processQueueF_inv R now hR (queueLen s) s hs

/-- Characterization of the state `addToQueue` builds before its final
`processQueue` call: the stored rate limit becomes the argument, the new
entry is appended, and `lastSent`, the stored timer, the armed timers,
the id counter and the dispatch log are untouched. -/
theorem addToQueuePre_char (now payload : Int) (n : String) (r : Int) (s : DestSys) :
    (addToQueuePre now payload n r s).qd = some
      { queue := queueOf s ++ [{ payload := payload, webhookName := n, timestamp := now }],
        lastSent := preLastSent s,
        timer := preTimer s,
        rateLimit := r } ∧
    (addToQueuePre now payload n r s).dispatches = s.dispatches ∧
    (addToQueuePre now payload n r s).pending = s.pending ∧
    (addToQueuePre now payload n r s).nextId = s.nextId := by
  rcases hqd : s.qd with _ | qd
  · unfold addToQueuePre
    rw [hqd]
    simp only [queueOf, preLastSent, preTimer, hqd, Option.getD_none]
    split <;> exact ⟨rfl, rfl, rfl, rfl⟩
  · unfold addToQueuePre
    rw [hqd]
    simp only [queueOf, preLastSent, preTimer, hqd, Option.getD_some]
    split <;> exact ⟨rfl, rfl, rfl, rfl⟩

/-- `showQueueNotification` is triggered by an enqueue exactly when the
updated rate limit is positive and (the queue already held an entry
before this append, or the elapsed time since `lastSent` is below the
rate-limit interval). -/
theorem addToQueuePre_notifs (now payload : Int) (n : String) (r : Int) (s : DestSys) :
    (addToQueuePre now payload n r s).notifs =
      if 0 < r ∧ (queueOf s ≠ [] ∨ now - preLastSent s < r * 1000) then
        s.notifs ++ [now]
      else s.notifs := by
  have hlen : ∀ l : List Entry, ∀ e : Entry, (1 < (l ++ [e]).length) ↔ l ≠ [] := by
    intro l e
    cases l <;> simp
  rcases hqd : s.qd with _ | qd
  · unfold addToQueuePre
    rw [hqd]
    simp only [Option.getD_none]
    split
    case isTrue h =>
      rw [if_pos]
      refine ⟨h.1, ?_⟩
      rcases h.2 with h2 | h2
      · rw [hlen] at h2
        simp at h2
      · right
        simpa [preLastSent, hqd] using h2
    case isFalse h =>
      rw [if_neg]
      intro hc
      apply h
      refine ⟨hc.1, ?_⟩
      rcases hc.2 with h2 | h2
      · simp [queueOf, hqd] at h2
      · right
        simpa [preLastSent, hqd] using h2
  · unfold addToQueuePre
    rw [hqd]
    simp only [Option.getD_some]
    split
    case isTrue h =>
      rw [if_pos]
      refine ⟨h.1, ?_⟩
      rcases h.2 with h2 | h2
      · left
        rw [hlen] at h2
        simpa [queueOf, hqd] using h2
      · right
        simpa [preLastSent, hqd] using h2
    case isFalse h =>
      rw [if_neg]
      intro hc
      apply h
      refine ⟨hc.1, ?_⟩
      rcases hc.2 with h2 | h2
      · left
        rw [hlen]
        simpa [queueOf, hqd] using h2
      · right
        simpa [preLastSent, hqd] using h2

theorem addToQueuePre_inv (R now payload : Int) (n : String) (s : DestSys)
    (hs : SysInv R s) :
    SysInv R (addToQueuePre now payload n R s) ∧
    dispSnd (addToQueuePre now payload n R s) ++ queueOf (addToQueuePre now payload n R s) =
      dispSnd s ++ queueOf s ++ [{ payload := payload, webhookName := n, timestamp := now }] := by
  obtain ⟨hqd, hdisp, _, _⟩ := addToQueuePre_char now payload n R s
  constructor
  · refine ⟨?_, ?_, ?_, ?_⟩
    · intro h; rw [hqd] at h; exact absurd h (by simp)
    · intro qd' h
      rw [hqd] at h
      simp only [Option.some.injEq] at h
      rw [← h]
    · intro qd' p h hp
      rw [hqd] at h
      simp only [Option.some.injEq] at h
      rw [← h]
      rw [hdisp] at hp
      rcases hsq : s.qd with _ | qd0
      · have : s.dispatches = [] := hs.qd_none hsq
        rw [this] at hp
        cases hp
      · have h1 : p.1 = qd0.lastSent := hs.last_eq qd0 p hsq hp
        simpa [preLastSent, hsq] using h1
    · show chronoSpaced (R * 1000) (addToQueuePre now payload n R s).dispatches
      rw [hdisp]
      exact hs.spaced
  · rw [queueOf, hqd]
    simp only [dispSnd, hdisp]
    simp [queueOf, List.append_assoc]

theorem step_inv (R : Int) (hR : 0 < R) (s : DestSys) (e : Event)
    (hs : SysInv R s) (he : eventRateOK R e = true) :
    SysInv R (step s e) ∧
    dispSnd (step s e) ++ queueOf (step s e) = dispSnd s ++ queueOf s ++ eEntries [e] := by
  rcases e with ⟨t, p, n, r⟩ | ⟨t, id⟩
  · have hr : r = R := by simpa [eventRateOK] using he
    subst hr
    have h1 := addToQueuePre_inv r t p n s hs
    have h2 := processQueue_inv r t hR (addToQueuePre t p n r s) h1.1
    refine ⟨h2.1, ?_⟩
    show dispSnd (addToQueue t p n r s) ++ queueOf (addToQueue t p n r s) = _
    rw [addToQueue, h2.2, h1.2]
    simp [eEntries]
  · show SysInv R (step s (Event.fire t id)) ∧ _
    rcases hf : s.pending.find? (fun q => q.1 = id) with _ | q
    · have hstep : step s (Event.fire t id) = s := by simp [step, hf]
      rw [hstep]
      simp [eEntries]
      exact hs
    · by_cases ht : q.2 ≤ t
      · have hstep : step s (Event.fire t id) =
            processQueue t { s with pending := s.pending.filter (fun q2 => q2.1 ≠ id) } := by
          simp [step, hf, ht]
        have hs' : SysInv R { s with pending := s.pending.filter (fun q2 => q2.1 ≠ id) } :=
          ⟨hs.qd_none, hs.rate_eq, hs.last_eq, hs.spaced⟩
        have h2 := processQueue_inv R t hR _ hs'
        rw [hstep]
        refine ⟨h2.1, ?_⟩
        rw [h2.2]
        simp [eEntries, dispSnd, queueOf]
      · have hstep : step s (Event.fire t id) = s := by simp [step, hf, ht]
        rw [hstep]
        simp [eEntries]
        exact hs

theorem runE_inv (R : Int) (hR : 0 < R) :
    ∀ tr s, SysInv R s → ratesOK R tr →
      SysInv R (runE s tr) ∧
      dispSnd (runE s tr) ++ queueOf (runE s tr) = dispSnd s ++ queueOf s ++ eEntries tr := by
  intro tr
  induction tr with
  | nil =>
    intro s hs _
    refine ⟨hs, ?_⟩
    simp [runE, eEntries]
  | cons e es ih =>
    intro s hs hr
    have h1 := step_inv R hR s e hs (hr e (List.mem_cons_self e es))
    have h2 := ih (step s e) h1.1 (fun e' he' => hr e' (List.mem_cons_of_mem e he'))
    have hrun : runE s (e :: es) = runE (step s e) es := by simp [runE]
    rw [hrun]
    refine ⟨h2.1, ?_⟩
    rw [h2.2, h1.2]
    rcases e with ⟨t, p, n, r⟩ | ⟨t, id⟩ <;> simp [eEntries]

/-- C1: For every sequence of enqueues to a single destination whose rate
limit R is greater than 0, entries are dispatched (handed to the delivery
wrapper `postToWebhookDirect`) in FIFO insertion order — the dispatch log
is a prefix of the enqueued entries in order — and the elapsed time
between any two consecutive dispatches for that destination is at least
the rate-limit interval (R seconds = R * 1000 ms). -/
theorem claimC1_fifo_and_rate_spacing (R : Int) (tr : List Event)
    (hR : 0 < R) (hE : ratesOK R tr) :
    (∃ rem, dispSnd (runE initDest tr) ++ rem = eEntries tr) ∧
    chronoSpaced (R * 1000) (runE initDest tr).dispatches := by
  have h := runE_inv R hR tr initDest (sysInv_init R) hE
  refine ⟨⟨queueOf (runE initDest tr), ?_⟩, h.1.spaced⟩
  rw [h.2]
  simp [dispSnd, queueOf, initDest]

def trC1 : List Event :=
  [Event.enqueue 10000 1 "w" 3, Event.enqueue 10001 2 "w" 3, Event.fire 13000 0]

theorem claimC1_witness :
    (0 < (3 : Int)) ∧ ratesOK 3 trC1 ∧
      ((∃ rem, dispSnd (runE initDest trC1) ++ rem = eEntries trC1) ∧
        chronoSpaced (3 * 1000) (runE initDest trC1).dispatches) :=
  ⟨by decide, by decide, claimC1_fifo_and_rate_spacing 3 trC1 (by decide) (by decide)⟩

def trC2 : List Event :=
  [Event.enqueue 10000 1 "a" 5, Event.enqueue 10001 2 "a" 5, Event.enqueue 15000 3 "a" 5]

/-- C2 counterexample: with rate limit 5 s, the first enqueue (t = 10000)
dispatches at once; the second (t = 10001) arms timer 0 due at 15000; the
third enqueue arrives at t = 15000 (the timer is due but its callback has
not run yet), dispatches, and the dispatch branch arms timer 1 due at
20000 without cancelling timer 0.  Both timers are armed at one instant,
so the claimed at-most-one-armed-timer invariant (and the claim that
every arming, including the dispatch branch's, first cancels the
previous timer) is false. -/
theorem claimC2_counterexample :
    (runE initDest trC2).pending = [(0, 15000), (1, 20000)] := by decide

/-- C2 amended: at most one timer id is stored per destination, and the
arming in the wait branch of the scheduling step always first cancels the
stored timer (cancel-and-replace); the arming in the dispatch branch when
further entries remain does NOT cancel, it only appends a new armed
timer, so two timers can be pending for one destination at one instant. -/
theorem claimC2_amended (now : Int) (s : DestSys) (qd : QueueData)
    (item : Entry) (rest : List Entry)
    (hqd : s.qd = some qd) (hq : qd.queue = item :: rest) :
    (∀ tid, qd.timer = some tid →
      (0 < qd.rateLimit ∧ now - qd.lastSent < qd.rateLimit * 1000) →
      (processQueue now s).pending =
        s.pending.filter (fun p => p.1 ≠ tid) ++
          [(s.nextId, now + (qd.rateLimit * 1000 - (now - qd.lastSent)))]) ∧
    (¬ (0 < qd.rateLimit ∧ now - qd.lastSent < qd.rateLimit * 1000) →
      rest ≠ [] → 0 < qd.rateLimit →
      (processQueue now s).pending = s.pending ++ [(s.nextId, now + qd.rateLimit * 1000)]) := by
  have hlen : queueLen s = rest.length + 1 := by simp [queueLen, hqd, hq]
  constructor
  · intro tid ht hc
    rw [processQueue, hlen, processQueueF_wait now rest.length s qd item rest hqd hq hc, ht]
  · intro hc hne hpos
    rw [processQueue, hlen,
      processQueueF_dispatch_arm now rest.length s qd item rest hqd hq hne hc hpos]

def qdC2w : QueueData :=
  { queue := [{ payload := 7, webhookName := "a", timestamp := 10001 }],
    lastSent := 10000, timer := some 0, rateLimit := 5 }

def sC2w : DestSys :=
  { qd := some qdC2w, pending := [(0, 15000)], nextId := 1, dispatches := [], notifs := [] }

theorem claimC2_amended_witness :
    sC2w.qd = some qdC2w ∧
    qdC2w.queue = { payload := 7, webhookName := "a", timestamp := 10001 } :: [] ∧
    ((∀ tid, qdC2w.timer = some tid →
      (0 < qdC2w.rateLimit ∧ (12000 : Int) - qdC2w.lastSent < qdC2w.rateLimit * 1000) →
      (processQueue 12000 sC2w).pending =
        sC2w.pending.filter (fun p => p.1 ≠ tid) ++
          [(sC2w.nextId, 12000 + (qdC2w.rateLimit * 1000 - (12000 - qdC2w.lastSent)))]) ∧
    (¬ (0 < qdC2w.rateLimit ∧ (12000 : Int) - qdC2w.lastSent < qdC2w.rateLimit * 1000) →
      ([] : List Entry) ≠ [] → 0 < qdC2w.rateLimit →
      (processQueue 12000 sC2w).pending =
        sC2w.pending ++ [(sC2w.nextId, 12000 + qdC2w.rateLimit * 1000)])) :=
  ⟨rfl, rfl, claimC2_amended 12000 sC2w qdC2w _ [] rfl rfl⟩

theorem processQueueF_notifs (now : Int) :
    ∀ fuel s, (processQueueF now fuel s).notifs = s.notifs := by
  intro fuel
  induction fuel with
  | zero => intro s; rfl
  | succ f ih =>
    intro s
    rcases hqd : s.qd with _ | qd
    · simp [processQueueF, hqd]
    · rcases hq : qd.queue with _ | ⟨item, rest⟩
      · simp [processQueueF, hqd, hq]
      · by_cases hc : 0 < qd.rateLimit ∧ now - qd.lastSent < qd.rateLimit * 1000
        · rw [processQueueF_wait now f s qd item rest hqd hq hc]
        · rcases hrest : rest with _ | ⟨e2, r2⟩
          · rw [hrest] at hq
            rw [processQueueF_dispatch_last now f s qd item hqd hq hc]
          · rw [hrest] at hq
            by_cases hz : 0 < qd.rateLimit
            · rw [processQueueF_dispatch_arm now f s qd item _ hqd hq (by simp) hc hz]
            · rw [processQueueF_dispatch_zero now f s qd item _ hqd hq (by simp) hc hz, ih]

def trC3pre : List Event := [Event.enqueue 1 1 "b" 5]

/-- C3 counterexample: after one enqueue with rate limit 5 the queue holds
one (deferred) entry; a second enqueue arriving with rate-limit argument
0 then has a non-empty pre-append queue, so the claim requires a progress
notification, but the code triggers none — `willBeQueued` conjoins the
whole condition with `rateLimit > 0`, which the updated rate limit 0
falsifies. -/
theorem claimC3_counterexample :
    queueOf (runE initDest trC3pre) ≠ [] ∧
    (step (runE initDest trC3pre) (Event.enqueue 2 2 "b" 0)).notifs =
      (runE initDest trC3pre).notifs := by decide

/-- C3 amended: an enqueue triggers a progress (queue) notification iff the
rate limit supplied to this enqueue is greater than 0 AND (the
destination's queue already held at least one entry before this append,
OR the elapsed time since `lastSent` is less than the rate-limit
interval). -/
theorem claimC3_amended (now payload : Int) (n : String) (r : Int) (s : DestSys) :
    (addToQueue now payload n r s).notifs =
      if 0 < r ∧ (queueOf s ≠ [] ∨ now - preLastSent s < r * 1000) then
        s.notifs ++ [now]
      else s.notifs := by
  rw [addToQueue, processQueue, processQueueF_notifs]
  exact addToQueuePre_notifs now payload n r s

/-- C9: every `addToQueue` call on an already-existing queue overwrites the
stored rate limit with the `rateLimit` argument (the source default for
an omitted argument is 0) before the deferred check and the scheduling
step, while leaving `lastSent`, the stored timer and the previously
queued entries unchanged (the new entry is appended at the tail); the
scheduling step then runs on exactly that updated state, so the effective
rate limit used for scheduling is the one supplied by the most recent
enqueue. -/
theorem claimC9_rate_overwrite (now payload : Int) (n : String) (r : Int)
    (s : DestSys) (qd : QueueData) (h : s.qd = some qd) :
    (addToQueuePre now payload n r s).qd = some
      { queue := qd.queue ++ [{ payload := payload, webhookName := n, timestamp := now }],
        lastSent := qd.lastSent,
        timer := qd.timer,
        rateLimit := r } ∧
    addToQueue now payload n r s = processQueue now (addToQueuePre now payload n r s) := by
  refine ⟨?_, rfl⟩
  rw [(addToQueuePre_char now payload n r s).1]
  simp [queueOf, preLastSent, preTimer, h]

def sC9w : DestSys :=
  { qd := some { queue := [{ payload := 3, webhookName := "c", timestamp := 50 }],
                 lastSent := 40, timer := none, rateLimit := 9 },
    pending := [], nextId := 0, dispatches := [], notifs := [] }

theorem claimC9_witness :
    sC9w.qd = some { queue := [{ payload := 3, webhookName := "c", timestamp := 50 }],
                     lastSent := 40, timer := none, rateLimit := 9 } ∧
    ((addToQueuePre 60 4 "c" 2 sC9w).qd = some
      { queue := [{ payload := 3, webhookName := "c", timestamp := 50 },
                  { payload := 4, webhookName := "c", timestamp := 60 }],
        lastSent := 40,
        timer := none,
        rateLimit := 2 } ∧
    addToQueue 60 4 "c" 2 sC9w = processQueue 60 (addToQueuePre 60 4 "c" 2 sC9w)) :=
  ⟨rfl, claimC9_rate_overwrite 60 4 "c" 2 sC9w _ rfl⟩

/-!
## Delivery wrapper `postToWebhookDirect` (retry policy)

The outcome of each successive `fetch` is supplied by an environment
`env : Nat → Outcome` (outcome of the k-th attempt).  The model records
the number of attempts performed, the completion notifications shown,
and the delay scheduled before each retry.
-/

/-- Classified outcome of one `fetch` of the webhook URL: a response with
`response.ok` true, a reachable response with `response.ok` false (its
status code), or a rejected promise (network-level exception, with the
error message). -/
inductive Outcome
  | ok (status : Int)
  | httpErr (status : Int)
  | netErr (msg : String)
deriving DecidableEq

/-- A completion notification shown by `postToWebhookDirect`. -/
inductive Note
  | success
  | failedHttp
  | networkError (msg : String)
deriving DecidableEq

/-- Observable behaviour of a `postToWebhookDirect` call tree: total
`fetch` attempts, completion notifications emitted, and the `setTimeout`
delays used for the scheduled retries, in order. -/
structure PostResult where
  attempts : Nat
  notes : List Note
  delays : List Int
deriving DecidableEq

/-- `postToWebhookDirect(webhookUrl, payload, retryCount = 3, webhookName)`:
attempt `k` fetches; a non-ok response with `retryCount > 0` schedules one
retry after 1000 ms with `retryCount - 1`; an ok response shows the
success notification; a non-ok response with no retries left shows the
terminal failure notification; a network exception with `retryCount > 0`
schedules one retry after 2000 ms with `retryCount - 1`; a network
exception with no retries left shows the terminal network-error
notification with the error message. -/
def postToWebhookDirect (env : Nat → Outcome) : Nat → Nat → PostResult
  | k, retryCount =>
    match env k with
    | .ok _ => { attempts := 1, notes := [Note.success], delays := [] }
    | .httpErr _ =>
      match retryCount with
      | rc + 1 =>
        let r := postToWebhookDirect env (k + 1) rc
        { attempts := r.attempts + 1, notes := r.notes, delays := 1000 :: r.delays }
      | 0 => { attempts := 1, notes := [Note.failedHttp], delays := [] }
    | .netErr msg =>
      match retryCount with
      | rc + 1 =>
        let r := postToWebhookDirect env (k + 1) rc
        { attempts := r.attempts + 1, notes := r.notes, delays := 2000 :: r.delays }
      | 0 => { attempts := 1, notes := [Note.networkError msg], delays := [] }

/-- Outcome environment for the C4 counterexample: the first three
attempts raise a network exception, the fourth succeeds. -/
def envC4 : Nat → Outcome :=
  fun k => if k < 3 then Outcome.netErr "down" else Outcome.ok 200

/-- C4 counterexample: the call starts with `retryCount = 3` (as
`processQueue` does), the first three send attempts all fail with a
network-level exception, yet no `networkError` notification is emitted
and a fourth attempt IS made (which here succeeds, yielding a success
notification) — refuting the claim that after three consecutive
network-exception failures exactly one terminal `networkError`
notification is emitted and no further attempt is made. -/
theorem claimC4_counterexample :
    envC4 0 = Outcome.netErr "down" ∧
    envC4 1 = Outcome.netErr "down" ∧
    envC4 2 = Outcome.netErr "down" ∧
    postToWebhookDirect envC4 0 3 =
      { attempts := 4, notes := [Note.success], delays := [2000, 2000, 2000] } := by
  refine ⟨rfl, rfl, rfl, ?_⟩
  decide

/-- C4 amended: if FOUR consecutive send attempts for one entry (the
initial attempt and all three retries) fail with a network-level
exception, then exactly one terminal `networkError` completion
notification is emitted for that entry (carrying the last observed error
message), and no further send attempt is made — four attempts in total,
each retry scheduled 2000 ms after the previous failure.  The wrapper
never touches the queue, so the entry is discarded (no re-enqueue). -/
theorem claimC4_amended (env : Nat → Outcome) (m0 m1 m2 m3 : String)
    (h0 : env 0 = Outcome.netErr m0) (h1 : env 1 = Outcome.netErr m1)
    (h2 : env 2 = Outcome.netErr m2) (h3 : env 3 = Outcome.netErr m3) :
    postToWebhookDirect env 0 3 =
      { attempts := 4, notes := [Note.networkError m3], delays := [2000, 2000, 2000] } := by
  simp [postToWebhookDirect, h0, h1, h2, h3]

def envC4w : Nat → Outcome := fun _ => Outcome.netErr "refused"

theorem claimC4_amended_witness :
    envC4w 0 = Outcome.netErr "refused" ∧
    envC4w 1 = Outcome.netErr "refused" ∧
    envC4w 2 = Outcome.netErr "refused" ∧
    envC4w 3 = Outcome.netErr "refused" ∧
    postToWebhookDirect envC4w 0 3 =
      { attempts := 4, notes := [Note.networkError "refused"],
        delays := [2000, 2000, 2000] } :=
  ⟨rfl, rfl, rfl, rfl, claimC4_amended envC4w _ _ _ _ rfl rfl rfl rfl⟩

/-- C5: every send attempt that fails with `retryCount > 0` schedules
exactly one retry, continuing as `postToWebhookDirect` with
`retryCount - 1` on the next attempt, after a flat delay of 1000 ms when
the failure is a reachable-but-unsuccessful HTTP response and 2000 ms
when it is a network-level exception. -/
theorem claimC5_single_flat_retry (env : Nat → Outcome) (k retryCount : Nat)
    (hrc : 0 < retryCount) :
    (∀ status, env k = Outcome.httpErr status →
      postToWebhookDirect env k retryCount =
        { attempts := (postToWebhookDirect env (k + 1) (retryCount - 1)).attempts + 1,
          notes := (postToWebhookDirect env (k + 1) (retryCount - 1)).notes,
          delays := 1000 :: (postToWebhookDirect env (k + 1) (retryCount - 1)).delays }) ∧
    (∀ msg, env k = Outcome.netErr msg →
      postToWebhookDirect env k retryCount =
        { attempts := (postToWebhookDirect env (k + 1) (retryCount - 1)).attempts + 1,
          notes := (postToWebhookDirect env (k + 1) (retryCount - 1)).notes,
          delays := 2000 :: (postToWebhookDirect env (k + 1) (retryCount - 1)).delays }) := by
  obtain ⟨rc, rfl⟩ : ∃ rc, retryCount = rc + 1 :=
    ⟨retryCount - 1, (Nat.succ_pred_eq_of_pos hrc).symm⟩
  constructor
  · intro status hk
    simp [postToWebhookDirect, hk]
  · intro msg hk
    simp [postToWebhookDirect, hk]

def envC5w : Nat → Outcome :=
  fun k => if k = 0 then Outcome.httpErr 500 else Outcome.ok 200

theorem claimC5_witness :
    0 < 3 ∧
    ((∀ status, envC5w 0 = Outcome.httpErr status →
      postToWebhookDirect envC5w 0 3 =
        { attempts := (postToWebhookDirect envC5w 1 2).attempts + 1,
          notes := (postToWebhookDirect envC5w 1 2).notes,
          delays := 1000 :: (postToWebhookDirect envC5w 1 2).delays }) ∧
    (∀ msg, envC5w 0 = Outcome.netErr msg →
      postToWebhookDirect envC5w 0 3 =
        { attempts := (postToWebhookDirect envC5w 1 2).attempts + 1,
          notes := (postToWebhookDirect envC5w 1 2).notes,
          delays := 2000 :: (postToWebhookDirect envC5w 1 2).delays })) :=
  ⟨by decide, claimC5_single_flat_retry envC5w 0 3 (by decide)⟩

/-!
## Progress notifications (`showQueueNotification` / `clearQueueNotification`)
-/

/-- Exact-integer embedding of the source's `Math.ceil(x / 1000)` (the
operands are integer-valued doubles, for which float arithmetic is
exact): ceiling division by 1000. -/
def jsCeilDiv1000 (x : Int) : Int := -((-x) / 1000)

theorem jsCeilDiv1000_eq (x : Int) : jsCeilDiv1000 x = ⌈((x : ℚ)) / 1000⌉ := by
  rw [jsCeilDiv1000]
  have h2 : ((x : ℚ)) / 1000 = -((((-x : ℤ) : ℚ)) / ((1000 : ℕ) : ℚ)) := by push_cast; ring
  rw [h2, Int.ceil_neg, Rat.floor_intCast_div_natCast]
  norm_num

/-- The content of one rendered queue notification:
`` `${queuePosition} in queue, ~${totalWait}s remaining` ``. -/
structure ProgressNote where
  positionCount : Nat
  estimatedSecondsRemaining : Int
deriving DecidableEq

/-- The `updateNotification` closure inside `showQueueNotification`, as a
function of the current time and the destination's queue record: when
the queue is missing or empty it clears the notification (modelled as
`none`); otherwise it renders the queue position and the estimated
seconds remaining
`Math.ceil((waitTime + (queuePosition - 1) * rateLimitMs) / 1000)` with
`waitTime = Math.max(0, rateLimitMs - timeSinceLastSent)`. -/
def updateNotification (now : Int) (qdOpt : Option QueueData) : Option ProgressNote :=
  match qdOpt with
  | none => none
  | some qd =>
    if qd.queue.isEmpty then none
    else
      let waitTime := max 0 (qd.rateLimit * 1000 - (now - qd.lastSent))
      let queuePosition : Int := qd.queue.length
      some { positionCount := qd.queue.length,
             estimatedSecondsRemaining :=
               jsCeilDiv1000 (waitTime + (queuePosition - 1) * (qd.rateLimit * 1000)) }

/-- The estimated-seconds formula exactly as the specification states it:
`ceil((wait + (positionCount - 1) * rateLimitInterval) / 1000)`, as a
mathematical (rational) ceiling. -/
def specEstimatedSecondsRemaining (rateLimitInterval wait : Int) (positionCount : Nat) : Int :=
  ⌈(((wait + ((positionCount : Int) - 1) * rateLimitInterval : Int)) : ℚ) / 1000⌉

/-- C6: every emitted progress notification for a destination with a
non-empty deferred queue reports `positionCount` = current queue length
and `estimatedSecondsRemaining` = ceil((wait + (positionCount - 1) *
rateLimitInterval) / 1000), where wait = max(0, rateLimitInterval -
(now - lastSent)) and rateLimitInterval = rateLimit * 1000 ms. -/
theorem claimC6_progress_eta (now : Int) (qd : QueueData) (h : qd.queue ≠ []) :
    updateNotification now (some qd) = some
      { positionCount := qd.queue.length,
        estimatedSecondsRemaining :=
          specEstimatedSecondsRemaining (qd.rateLimit * 1000)
            (max 0 (qd.rateLimit * 1000 - (now - qd.lastSent))) qd.queue.length } := by
  have hie : qd.queue.isEmpty = false := by simpa [List.isEmpty_iff] using h
  simp only [updateNotification, hie, Bool.false_eq_true, if_false,
    specEstimatedSecondsRemaining, jsCeilDiv1000_eq]

def qdC6w : QueueData :=
  { queue := [{ payload := 1, webhookName := "n", timestamp := 7000 },
              { payload := 2, webhookName := "n", timestamp := 7500 }],
    lastSent := 6000, timer := some 0, rateLimit := 10 }

theorem claimC6_witness :
    qdC6w.queue ≠ [] ∧
    updateNotification 8000 (some qdC6w) = some
      { positionCount := qdC6w.queue.length,
        estimatedSecondsRemaining :=
          specEstimatedSecondsRemaining (qdC6w.rateLimit * 1000)
            (max 0 (qdC6w.rateLimit * 1000 - (8000 - qdC6w.lastSent))) qdC6w.queue.length } :=
  ⟨by decide, claimC6_progress_eta 8000 qdC6w (by decide)⟩

/-- The record stored in `queueNotifications` for the destination:
`{ notificationId, intervalId }`.  The notification id
`` `queue_${webhookUrl}_${Date.now()}` `` is keyed (for a fixed url) by
its creation time. -/
structure NotifEntry where
  notificationId : Int
  intervalId : Nat
deriving DecidableEq

/-- Notification-subsystem state for one destination: the
`queueNotifications` entry, the chrome notifications currently rendered
(by id), the live `setInterval` handles, the fire times of the pending
60-second auto-clear `setTimeout`s (these are never stored and can never
be cancelled), and a fresh-interval-id counter. -/
structure NSys where
  current : Option NotifEntry
  displayed : List Int
  activeIntervals : List Nat
  autoClears : List Int
  nextIntervalId : Nat
deriving DecidableEq

/-- `clearQueueNotification(webhookUrl)`: if `queueNotifications` holds an
entry for the url, cancel its update interval, clear its chrome
notification, and delete the map entry.  The pending 60-second auto-clear
timeouts are not touched (there is no handle to them). -/
def clearQueueNotification (s : NSys) : NSys :=
  match s.current with
  | none => s
  | some ne =>
    { s with
      current := none,
      activeIntervals := s.activeIntervals.filter (fun i => i ≠ ne.intervalId),
      displayed := s.displayed.filter (fun i => i ≠ ne.notificationId) }

/-- `showQueueNotification(webhookUrl, webhookName)` at time `now`, with
`qdOpt` the `webhookQueues` record the initial `updateNotification` call
observes: build the notification id from the creation time, clear any
existing notification for the url, render the initial update (on an
empty queue `updateNotification` clears instead, but the function still
proceeds), register the update interval, store
`{ notificationId, intervalId }` in `queueNotifications`, and register an
auto-clear timeout for `now + 60000` that is never stored anywhere. -/
def showQueueNotification (now : Int) (qdOpt : Option QueueData) (s : NSys) : NSys :=
  let notificationId := now
  let s1 := clearQueueNotification s
  let s2 :=
    match updateNotification now qdOpt with
    | some _ =>
      { s1 with displayed := s1.displayed.filter (fun i => i ≠ notificationId) ++ [notificationId] }
    | none => clearQueueNotification s1
  { s2 with
    current := some { notificationId := notificationId, intervalId := s2.nextIntervalId },
    activeIntervals := s2.activeIntervals ++ [s2.nextIntervalId],
    nextIntervalId := s2.nextIntervalId + 1,
    autoClears := s2.autoClears ++ [now + 60000] }

/-- A pending auto-clear timeout with fire time `ft` fires at time `t`
(no earlier than `ft`): it runs `clearQueueNotification(webhookUrl)`,
clearing whatever notification is current for the url at that moment. -/
def fireAutoClear (t ft : Int) (s : NSys) : NSys :=
  if ft ∈ s.autoClears ∧ ft ≤ t then
    clearQueueNotification { s with autoClears := s.autoClears.erase ft }
  else s

/-- The notification subsystem before any notification was shown. -/
def initNSys : NSys :=
  { current := none, displayed := [], activeIntervals := [], autoClears := [],
    nextIntervalId := 0 }

theorem updateNotification_isSome (now : Int) (qd : QueueData) (h : qd.queue ≠ []) :
    ∃ note, updateNotification now (some qd) = some note := by
  have hie : qd.queue.isEmpty = false := by simpa [List.isEmpty_iff] using h
  simp [updateNotification, hie]

/-- C10: the 60-second auto-clear timeout registered by
`showQueueNotification` is keyed only by the url (its callback is
`() => clearQueueNotification(webhookUrl)`) and is never cancelled when
the notification it was created for is cleared or replaced.  If the
notification shown at `t0` is cleared and a new one is created for the
same destination at `t2` within 60 s of the first (`t0 < t2 <
t0 + 60000`), the first timeout is still pending afterwards, and when it
fires on schedule at `t0 + 60000` it clears the newer notification —
at a moment strictly earlier than `t2 + 60000`, i.e. before 60 s of the
newer notification's own lifetime have elapsed. -/
theorem claimC10_stale_autoclear (t0 t2 : Int) (qd0 qd1 : QueueData)
    (hq0 : qd0.queue ≠ []) (hq1 : qd1.queue ≠ [])
    (hlt : t0 < t2) (hwin : t2 < t0 + 60000) :
    (t0 + 60000) ∈
      (showQueueNotification t2 (some qd1)
        (clearQueueNotification (showQueueNotification t0 (some qd0) initNSys))).autoClears ∧
    (showQueueNotification t2 (some qd1)
        (clearQueueNotification (showQueueNotification t0 (some qd0) initNSys))).current =
      some { notificationId := t2, intervalId := 1 } ∧
    t2 ∈ (showQueueNotification t2 (some qd1)
        (clearQueueNotification (showQueueNotification t0 (some qd0) initNSys))).displayed ∧
    (fireAutoClear (t0 + 60000) (t0 + 60000)
      (showQueueNotification t2 (some qd1)
        (clearQueueNotification (showQueueNotification t0 (some qd0) initNSys)))).current =
      none ∧
    t2 ∉ (fireAutoClear (t0 + 60000) (t0 + 60000)
      (showQueueNotification t2 (some qd1)
        (clearQueueNotification (showQueueNotification t0 (some qd0) initNSys)))).displayed ∧
    t0 + 60000 < t2 + 60000 := by
  obtain ⟨n0, hu0⟩ := updateNotification_isSome t0 qd0 hq0
  obtain ⟨n1, hu1⟩ := updateNotification_isSome t2 qd1 hq1
  have h0 : showQueueNotification t0 (some qd0) initNSys =
      { current := some { notificationId := t0, intervalId := 0 },
        displayed := [t0], activeIntervals := [0], autoClears := [t0 + 60000],
        nextIntervalId := 1 } := by
    simp [showQueueNotification, clearQueueNotification, initNSys, hu0]
  have hA : clearQueueNotification (showQueueNotification t0 (some qd0) initNSys) =
      { current := none, displayed := [], activeIntervals := [],
        autoClears := [t0 + 60000], nextIntervalId := 1 } := by
    rw [h0]
    simp [clearQueueNotification]
  have hB : showQueueNotification t2 (some qd1)
        (clearQueueNotification (showQueueNotification t0 (some qd0) initNSys)) =
      { current := some { notificationId := t2, intervalId := 1 },
        displayed := [t2], activeIntervals := [1],
        autoClears := [t0 + 60000, t2 + 60000], nextIntervalId := 2 } := by
    rw [hA]
    simp [showQueueNotification, clearQueueNotification, hu1]
  rw [hB]
  have hfire : fireAutoClear (t0 + 60000) (t0 + 60000)
      ({ current := some { notificationId := t2, intervalId := 1 },
         displayed := [t2], activeIntervals := [1],
         autoClears := [t0 + 60000, t2 + 60000], nextIntervalId := 2 } : NSys) =
      { current := none, displayed := [], activeIntervals := [],
        autoClears := [t2 + 60000], nextIntervalId := 2 } := by
    rw [fireAutoClear, if_pos ⟨by simp, le_refl _⟩]
    have herase : ([t0 + 60000, t2 + 60000] : List Int).erase (t0 + 60000) =
        [t2 + 60000] := by
      simp [List.erase_cons_head]
    rw [herase]
    simp [clearQueueNotification]
  rw [hfire]
  refine ⟨by simp, rfl, by simp, rfl, by simp, by omega⟩

def qdC10w : QueueData :=
  { queue := [{ payload := 1, webhookName := "u", timestamp := 100000 }],
    lastSent := 90000, timer := none, rateLimit := 60 }

theorem claimC10_witness :
    qdC10w.queue ≠ [] ∧ (100000 : Int) < 130000 ∧ (130000 : Int) < 100000 + 60000 ∧
    ((100000 + 60000 : Int) ∈
      (showQueueNotification 130000 (some qdC10w)
        (clearQueueNotification (showQueueNotification 100000 (some qdC10w) initNSys))).autoClears ∧
    (showQueueNotification 130000 (some qdC10w)
        (clearQueueNotification (showQueueNotification 100000 (some qdC10w) initNSys))).current =
      some { notificationId := 130000, intervalId := 1 } ∧
    (130000 : Int) ∈ (showQueueNotification 130000 (some qdC10w)
        (clearQueueNotification (showQueueNotification 100000 (some qdC10w) initNSys))).displayed ∧
    (fireAutoClear (100000 + 60000) (100000 + 60000)
      (showQueueNotification 130000 (some qdC10w)
        (clearQueueNotification (showQueueNotification 100000 (some qdC10w) initNSys)))).current =
      none ∧
    (130000 : Int) ∉ (fireAutoClear (100000 + 60000) (100000 + 60000)
      (showQueueNotification 130000 (some qdC10w)
        (clearQueueNotification (showQueueNotification 100000 (some qdC10w) initNSys)))).displayed ∧
    (100000 : Int) + 60000 < 130000 + 60000) := by
  refine ⟨by decide, by decide, by decide, ?_⟩
  exact claimC10_stale_autoclear 100000 130000 qdC10w qdC10w (by decide) (by decide)
    (by decide) (by decide)

/-!
## Configure: queue initialization from the registry

Models `initializeQueues` over the whole `webhookQueues` map (a function
from webhook url to optional queue record): for each stored webhook, a
missing queue record is created fresh and an existing one only has its
`rateLimit` overwritten with `webhook.rateLimit || 0`.
-/

/-- A destination as stored in `chrome.storage.local` under `webhooks`.
`rateLimit` is optional: older records may lack the field (JS
`undefined`). -/
structure Webhook where
  url : String
  name : String
  rateLimit : Option Int
  enableNoteModal : Bool
deriving DecidableEq

/-- JS `webhook.rateLimit || 0`: `0` for a missing (undefined) or falsy
(0) value, the value itself otherwise. -/
def jsOr0 : Option Int → Int
  | none => 0
  | some v => if v = 0 then 0 else v

/-- The `webhookQueues` map, keyed by webhook url. -/
abbrev QMap := String → Option QueueData

/-- One iteration of the `data.webhooks.forEach` loop in
`initializeQueues`: create the queue record if absent, otherwise update
only its rate limit. -/
def initStep (m : QMap) (w : Webhook) : QMap :=
  match m w.url with
  | none => fun u =>
      if u = w.url then
        some { queue := [], lastSent := 0, timer := none, rateLimit := jsOr0 w.rateLimit }
      else m u
  | some qdata => fun u =>
      if u = w.url then some { qdata with rateLimit := jsOr0 w.rateLimit }
      else m u

/-- `initializeQueues` from the source (the `forEach` over the stored
webhooks). -/
def initQueues (webhooks : List Webhook) (m : QMap) : QMap :=
  webhooks.foldl initStep m

/-- The rate limit (`|| 0`) of the last webhook in the list with the given
url, if any. -/
def lastRate (u : String) : List Webhook → Option Int
  | [] => none
  | w :: ws =>
    match lastRate u ws with
    | some r => some r
    | none => if w.url = u then some (jsOr0 w.rateLimit) else none

/-- The queue record `initializeQueues` builds on: the existing one, or
the fresh empty record. -/
def baseOf (o : Option QueueData) : QueueData :=
  o.getD { queue := [], lastSent := 0, timer := none, rateLimit := 0 }

theorem initQueues_char (ws : List Webhook) (m : QMap) (u : String) :
    initQueues ws m u =
      match lastRate u ws with
      | none => m u
      | some r => some { baseOf (m u) with rateLimit := r } := by
  induction ws generalizing m with
  | nil => rfl
  | cons w ws ih =>
    have hcons : initQueues (w :: ws) m = initQueues ws (initStep m w) := rfl
    by_cases hw : w.url = u
    · have hm : (initStep m w) u = some { baseOf (m u) with rateLimit := jsOr0 w.rateLimit } := by
        unfold initStep
        rcases hmu : m w.url with _ | qd
        · rw [← hw] at *
          simp [hmu, baseOf]
        · rw [← hw] at *
          simp [hmu, baseOf]
      rw [hcons, ih]
      rcases hlr : lastRate u ws with _ | r
      · have hlr2 : lastRate u (w :: ws) = some (jsOr0 w.rateLimit) := by
          simp [lastRate, hlr, hw]
        rw [hlr2]
        simp only [hlr]
        rw [hm]
      · have hlr2 : lastRate u (w :: ws) = some r := by
          simp [lastRate, hlr]
        rw [hlr2]
        simp only [hlr, hm]
        rfl
    · have hm : (initStep m w) u = m u := by
        unfold initStep
        rcases hmu : m w.url with _ | qd
        · simp only
          rw [if_neg (fun h => hw h.symm)]
        · simp only
          rw [if_neg (fun h => hw h.symm)]
      have hlr2 : lastRate u (w :: ws) = lastRate u ws := by
        rcases hlr : lastRate u ws with _ | r <;> simp [lastRate, hlr, hw]
      rw [hcons, ih, hm, hlr2]

/-- C7: Configure (`initializeQueues`, the queue initialization from the
registry) is idempotent, and for every destination whose queue already
exists it mutates only the stored rate-limit interval: the queue's
pending entries, its `lastSent` timestamp and its stored timer are
unchanged by any reconfiguration, so no pending entry is dropped when
the rate limit changes. -/
theorem claimC7_reconfigure_frame (ws : List Webhook) (m : QMap) (u : String)
    (qd : QueueData) (h : m u = some qd) :
    initQueues ws (initQueues ws m) = initQueues ws m ∧
    ∃ r, initQueues ws m u = some
      { queue := qd.queue, lastSent := qd.lastSent, timer := qd.timer, rateLimit := r } := by
  constructor
  · funext u'
    rw [initQueues_char ws (initQueues ws m) u', initQueues_char ws m u']
    rcases hlr : lastRate u' ws with _ | r
    · rfl
    · rfl
  · refine ⟨(lastRate u ws).getD qd.rateLimit, ?_⟩
    rw [initQueues_char ws m u, h]
    rcases hlr : lastRate u ws with _ | r
    · rfl
    · rfl

def qdC7w : QueueData :=
  { queue := [{ payload := 5, webhookName := "d", timestamp := 11 }],
    lastSent := 10, timer := some 2, rateLimit := 4 }

def mC7w : QMap := fun u => if u = "https://d.example/h" then some qdC7w else none

def wsC7w : List Webhook :=
  [{ url := "https://d.example/h", name := "d", rateLimit := some 9, enableNoteModal := false }]

theorem claimC7_witness :
    mC7w "https://d.example/h" = some qdC7w ∧
    (initQueues wsC7w (initQueues wsC7w mC7w) = initQueues wsC7w mC7w ∧
    ∃ r, initQueues wsC7w mC7w "https://d.example/h" = some
      { queue := qdC7w.queue, lastSent := qdC7w.lastSent, timer := qdC7w.timer,
        rateLimit := r }) :=
  ⟨rfl, claimC7_reconfigure_frame wsC7w mC7w "https://d.example/h" qdC7w rfl⟩

/-!
## Configure front end: the webhook form submit handler

Models the `webhookForm` submit handler of the popup: a destination
configuration enters the registry (`chrome.storage.local`, key
`webhooks`) only through this handler, and `initializeQueues` runs on the
registry contents whenever they change.  A rejected submission changes
neither the registry nor the queues.
-/

/-- The trimmed rate-limit form field: empty string, a non-numeric string
(JS `parseInt` yields `NaN`), or a parsed integer. -/
inductive RateField
  | empty
  | invalid
  | num (v : Int)
deriving DecidableEq

/-- `const rateLimitValue = rateLimit ? parseInt(rateLimit, 10) : 0`.
(The `invalid` case is `NaN` in JS; its stand-in value 0 is never used
because such a submission is always rejected.) -/
def rateValueOf : RateField → Int
  | .empty => 0
  | .invalid => 0
  | .num v => v

/-- The inputs of one form submission. -/
structure FormInput where
  url : String
  name : String
  rate : RateField
  enableNoteModal : Bool
  editIndex : Option Nat
deriving DecidableEq

/-- The `webhookForm` submit handler: reject when url or name is empty,
when the url fails `validateURL` (supplied as a predicate), or when the
rate-limit field is non-empty and parses to `NaN` or a negative number
(`if (rateLimit && (Number.isNaN(rateLimitValue) || rateLimitValue < 0))`);
otherwise update the stored webhook at the edited index or append a new
one.  `none` means the submission was rejected and storage is unchanged. -/
def webhookFormSubmit (urlValid : String → Bool) (inp : FormInput)
    (stored : List Webhook) : Option (List Webhook) :=
  if inp.url = "" ∨ inp.name = "" then none
  else if urlValid inp.url = false then none
  else if inp.rate ≠ RateField.empty ∧
      (inp.rate = RateField.invalid ∨ rateValueOf inp.rate < 0) then none
  else
    let wh : Webhook := { url := inp.url, name := inp.name,
                          rateLimit := some (rateValueOf inp.rate),
                          enableNoteModal := inp.enableNoteModal }
    match inp.editIndex with
    | some i => some (stored.set i wh)
    | none => some (stored ++ [wh])

/-- Configure pipeline: a form submission either is rejected (storage and
queues untouched — no `storage.onChanged` event fires) or is saved, in
which case `initializeQueues` runs on the new registry contents. -/
def formConfigure (urlValid : String → Bool) (inp : FormInput)
    (stored : List Webhook) (m : QMap) : List Webhook × QMap :=
  match webhookFormSubmit urlValid inp stored with
  | none => (stored, m)
  | some ws => (ws, initQueues ws m)

/-- C8: a malformed destination configuration with a negative rate limit
is rejected at Configure time — the submit handler refuses it, the
registry keeps its previous contents, and the destination is left
unconfigured: no queue is created or updated for it (the whole
`webhookQueues` map, in particular the entry for the submitted url, is
unchanged). -/
theorem claimC8_negative_rate_rejected (urlValid : String → Bool) (inp : FormInput)
    (stored : List Webhook) (m : QMap) (v : Int)
    (hv : inp.rate = RateField.num v) (hneg : v < 0) :
    formConfigure urlValid inp stored m = (stored, m) ∧
    (formConfigure urlValid inp stored m).2 inp.url = m inp.url := by
  have hrej : webhookFormSubmit urlValid inp stored = none := by
    unfold webhookFormSubmit
    by_cases h1 : inp.url = "" ∨ inp.name = ""
    · rw [if_pos h1]
    · rw [if_neg h1]
      by_cases h2 : urlValid inp.url = false
      · rw [if_pos h2]
      · rw [if_neg h2, if_pos ⟨(by simp [hv]), Or.inr (by rw [hv]; exact hneg)⟩]
  have hcfg : formConfigure urlValid inp stored m = (stored, m) := by
    unfold formConfigure
    rw [hrej]
  exact ⟨hcfg, by rw [hcfg]⟩

def inpC8w : FormInput :=
  { url := "https://x.example/h", name := "x", rate := RateField.num (-3),
    enableNoteModal := false, editIndex := none }

theorem claimC8_witness :
    inpC8w.rate = RateField.num (-3) ∧ (-3 : Int) < 0 ∧
    (formConfigure (fun _ => true) inpC8w [] (fun _ => none) = ([], fun _ => none) ∧
    (formConfigure (fun _ => true) inpC8w [] (fun _ => none)).2 inpC8w.url =
      (fun _ => (none : Option QueueData)) inpC8w.url) :=
  ⟨rfl, by decide,
    claimC8_negative_rate_rejected (fun _ => true) inpC8w [] (fun _ => none) (-3)
      rfl (by decide)⟩
